import Mathlib

/-!
# Verification of `camshift_tracking.cpp`

A shallow embedding of the CamShift tracking glue program: the ROI
selection callback, the ROI box / histogram computation, the per-frame
tracking loop, and the command-line handling.  External OpenCV
primitives (colour conversion, back-projection, the mean-shift search,
drawing) are modelled as parameters bundled in an `Ext` structure;
everything the repository itself computes is embedded faithfully.
-/

namespace Camshift

/-- Model of `cv::Point`: an integer screen coordinate. -/
structure Point where
  x : Int
  y : Int
deriving DecidableEq, Repr

/-- Model of `cv::Rect`: x, y is the top-left corner; width/height extend right/down. -/
structure Rect where
  x : Int
  y : Int
  width : Int
  height : Int
deriving DecidableEq, Repr

/-- The `cv::Rect(Point pt1, Point pt2)` constructor: the axis-aligned
bounding rectangle of the two points (OpenCV normalizes the corners with
min/max). -/
def Rect.ofPoints (p q : Point) : Rect :=
  { x := min p.x q.x
    y := min p.y q.y
    width := max p.x q.x - min p.x q.x
    height := max p.y q.y - min p.y q.y }

/-- Model of `cv::Rect::empty()`: true when the width or height is non-positive. -/
def Rect.empty (r : Rect) : Bool :=
  decide (r.width ≤ 0 ∨ r.height ≤ 0)

/-- The constant `INT_MAX`, the initial value of `min_sum` in `frame_roi`. -/
def INT_MAX : Int := 2147483647

/-- Accumulator of the corner-finding loop in `frame_roi`:
`top_left`, `bottom_right`, `min_sum`, `max_sum`. -/
structure Corners where
  top_left : Point
  bottom_right : Point
  min_sum : Int
  max_sum : Int
deriving DecidableEq, Repr

/-- One iteration of the `for (const auto& point : roi_points_vec)` loop:
`sum = x + y`; update `top_left/min_sum` when `sum < min_sum`, then
`bottom_right/max_sum` when `sum > max_sum`. -/
def cornerStep (acc : Corners) (p : Point) : Corners :=
  let sum := p.x + p.y
  let acc1 := if sum < acc.min_sum then
      { acc with min_sum := sum, top_left := p } else acc
  if sum > acc1.max_sum then
      { acc1 with max_sum := sum, bottom_right := p } else acc1

/-- The loop's initial accumulator: default-constructed `cv::Point`s are
`(0,0)`; `min_sum = INT_MAX`, `max_sum = 0`. -/
def initCorners : Corners :=
  { top_left := ⟨0, 0⟩, bottom_right := ⟨0, 0⟩
    min_sum := INT_MAX, max_sum := 0 }

/-- The corner-finding loop of `frame_roi` over the recorded points. -/
def findCorners (pts : List Point) : Corners :=
  pts.foldl cornerStep initCorners

/-- The box `roi_box = cv::Rect(top_left, bottom_right)` as computed by `frame_roi`. -/
def roiBoxOf (pts : List Point) : Rect :=
  let c := findCorners pts
  Rect.ofPoints c.top_left c.bottom_right

/-! ## Histogram model (`cv::calcHist` with 16 bins on [0,180], and
`cv::normalize` with `NORM_MINMAX` onto [0,255]) -/

/-- Bin index of a hue value for a uniform 16-bin histogram on [0,180). -/
def binOf (h : Nat) : Nat := h * 16 / 180

/-- Model of `cv::calcHist(&roi, 1, 0, Mat(), roi_hist, 1, &histSize, &histRange)`
with `histSize = 16`, `range = [0,180]`: per-bin counts of the hue values;
values outside the range are not counted. -/
def calcHist16 (hues : List Nat) : List Nat :=
  (List.range 16).map fun b =>
    (hues.filter fun h => decide (h < 180) && decide (binOf h = b)).length

/-- Smallest element of a list of naturals (0 for the empty list),
as found by `cv::minMaxLoc` inside `cv::normalize`. -/
def listMin : List Nat → Nat
  | [] => 0
  | x :: xs => xs.foldl min x

/-- Largest element of a list of naturals (0 for the empty list). -/
def listMax : List Nat → Nat
  | [] => 0
  | x :: xs => xs.foldl max x

/-- Model of `cv::normalize(roi_hist, roi_hist, 0, 255, cv::NORM_MINMAX)`:
affinely map the source range `[min, max]` onto `[0, 255]`; when the
source range is degenerate every value maps to 0. -/
def normalizeMinMax (xs : List Nat) : List ℚ :=
  let lo : ℚ := (listMin xs : ℚ)
  let hi : ℚ := (listMax xs : ℚ)
  if hi = lo then xs.map fun (_ : Nat) => (0 : ℚ)
  else xs.map fun (c : Nat) => ((c : ℚ) - lo) * 255 / (hi - lo)

/-! ## Frames and external OpenCV primitives -/

/-- A `cv::Mat` image: a list of rows of pixels of some pixel type. -/
abbrev Frame (Pix : Type) : Type := List (List Pix)

/-- Model of `orig_frame(roi_box)`: the sub-image of `f` delimited by `r`. -/
def crop (f : Frame Pix) (r : Rect) : Frame Pix :=
  ((f.drop r.y.toNat).take r.height.toNat).map
    fun row => (row.drop r.x.toNat).take r.width.toNat

/-- Model of `cv::RotatedRect`: centre, size and angle (floating-point in OpenCV,
modelled over ℚ). -/
structure RotRect where
  cx : ℚ
  cy : ℚ
  w : ℚ
  h : ℚ
  angle : ℚ
deriving DecidableEq, Repr

/-- Model of `cv::TermCriteria`: the termination rule handed to `cv::CamShift`. -/
structure TermCriteria where
  type : Nat
  maxCount : Nat
  epsilon : ℚ
deriving DecidableEq, Repr

/-- The constant `cv::TermCriteria::COUNT`. -/
def TermCriteria.COUNT : Nat := 1

/-- The constant `cv::TermCriteria::EPS`. -/
def TermCriteria.EPS : Nat := 2

/-- The criteria `cv::TermCriteria termination(cv::TermCriteria::EPS | cv::TermCriteria::COUNT, 10, 1)`
declared in `main` and passed to every `apply_camshift` call. -/
def termination : TermCriteria :=
  { type := TermCriteria.EPS ||| TermCriteria.COUNT, maxCount := 10, epsilon := 1 }

/-- The external OpenCV primitives the program delegates to.  The
repository computes nothing inside these; every theorem below therefore
quantifies over them.  `camShift` returns both the `cv::RotatedRect`
result and the updated search window that `cv::CamShift` writes through
its in/out `Rect&` parameter. -/
structure Ext (Pix : Type) where
  drawCircle : Frame Pix → Point → Frame Pix
  cvtHSV : Pix → Pix
  hue : Pix → Nat
  backProject : Frame Pix → List ℚ → Frame ℚ
  camShift : Frame ℚ → Rect → TermCriteria → RotRect × Rect
  boxPoints : RotRect → List Point
  drawPoly : Frame Pix → List Point → Frame Pix

/-! ## Global state and the mouse callback -/

/-- The constant `cv::EVENT_LBUTTONDOWN`. -/
def EVENT_LBUTTONDOWN : Nat := 1

/-- A mouse callback invocation: the event code and the pointer position. -/
structure MouseEvent where
  event : Nat
  x : Int
  y : Int
deriving DecidableEq, Repr

/-- The program's global state: `cv::Mat frame`,
`std::vector<cv::Point> roi_points`, `bool input_mode`, together with
`main`'s locals `roi_box` and `roi_hist`. -/
structure St (Pix : Type) where
  frame : Frame Pix
  roi_points : List Point
  input_mode : Bool
  roi_box : Rect
  roi_hist : List ℚ

/-- The `select_roi` mouse callback: when in input mode, on a left
button press with fewer than 4 recorded points, record the click and
draw a circle marker on the (live) frame. -/
def select_roi (ext : Ext Pix) (g : St Pix) (ev : MouseEvent) : St Pix :=
  if g.input_mode ∧ ev.event = EVENT_LBUTTONDOWN ∧ g.roi_points.length < 4 then
    { g with roi_points := g.roi_points ++ [⟨ev.x, ev.y⟩]
             frame := ext.drawCircle g.frame ⟨ev.x, ev.y⟩ }
  else g

/-- Deliver a sequence of mouse events to the callback. -/
def processClicks (ext : Ext Pix) (g : St Pix) (evs : List MouseEvent) : St Pix :=
  evs.foldl (select_roi ext) g

/-- The `while (roi_points.size() < 4) { imshow; waitKey(0); }` wait of
`frame_roi`: deliver events until 4 points are recorded.  The boolean
reports whether the wait completed; `false` means the event stream ran
out first (the real program would keep blocking in `waitKey`). -/
def processUntil4 (ext : Ext Pix) : St Pix → List MouseEvent → St Pix × Bool
  | g, [] => (g, decide (4 ≤ g.roi_points.length))
  | g, e :: rest =>
    if 4 ≤ g.roi_points.length then (g, true)
    else processUntil4 ext (select_roi ext g e) rest

/-- Model of `frame_roi()`: freeze a clone of the current frame, wait for 4
points, derive the ROI box with the min/max-sum corner loop, crop the
*frozen* frame, convert the crop to HSV, and compute the normalized
16-bin hue histogram.  Returns `none` in the first component when the
wait never completes. -/
def frame_roi (ext : Ext Pix) (g : St Pix) (events : List MouseEvent) :
    Option (List ℚ × Rect) × St Pix :=
  let g1 := { g with input_mode := true }
  let orig_frame := g1.frame
  match processUntil4 ext g1 events with
  | (g2, false) => (none, g2)
  | (g2, true) =>
    let roi_box := roiBoxOf g2.roi_points
    let roi := crop orig_frame roi_box
    let roiHsv := roi.map (List.map ext.cvtHSV)
    let roi_hist := normalizeMinMax (calcHist16 (roiHsv.flatten.map ext.hue))
    (some (roi_hist, roi_box), g2)

/-! ## The tracking call and the main loop -/

/-- Record of one `cv::CamShift` invocation: the search window and
criteria passed in, plus what the library handed back (the rotated
rectangle and the updated window, the latter discarded by the caller
since `apply_camshift` takes `roi_box` by const reference). -/
structure CamCall where
  window : Rect
  crit : TermCriteria
  updatedWindow : Rect
  result : RotRect
deriving DecidableEq, Repr

/-- Model of `apply_camshift(roi_box, termination, roi_hist)`: convert the frame
to HSV, back-project against the histogram, run `cv::CamShift`, draw the
resulting rotated rectangle's outline.  Returns the drawn-on frame and
the record of the tracking call. -/
def apply_camshift (ext : Ext Pix) (roi_box : Rect) (crit : TermCriteria)
    (roi_hist : List ℚ) (frame : Frame Pix) : Frame Pix × CamCall :=
  let hsv := frame.map (List.map ext.cvtHSV)
  let back_projection := ext.backProject hsv roi_hist
  let rw := ext.camShift back_projection roi_box crit
  let points := ext.boxPoints rw.1
  (ext.drawPoly frame points,
   { window := roi_box, crit := crit, updatedWindow := rw.2, result := rw.1 })

/-- One iteration's worth of environment input: the captured frame
(`none` when `camera >> frame` yields an empty frame), the key returned
by `waitKey(1)`, the mouse events delivered during that wait, and the
mouse events delivered inside `frame_roi`'s blocking wait if selection
is entered. -/
structure Iter (Pix : Type) where
  frame : Option (Frame Pix)
  key : Char
  waitClicks : List MouseEvent
  selClicks : List MouseEvent

/-- Observable events of a run of the main loop. -/
inductive TraceEv where
  | camshift (c : CamCall)
  | select (box : Rect) (hist : List ℚ)
deriving DecidableEq

/-- One iteration of the `while (true)` body of `main`: read a frame
(`break` when empty), run `apply_camshift` when `roi_box` is non-empty,
show the frame and deliver the mouse events of `waitKey(1)`, then
dispatch on the key: `'i'` with fewer than 4 recorded points enters
`frame_roi`, `'q'` breaks.  The boolean is `false` when the iteration
left the loop (empty frame or quit key) or blocks forever inside
`frame_roi`'s wait. -/
def loopIter (ext : Ext Pix) (s : St Pix) (it : Iter Pix) :
    List TraceEv × St Pix × Bool :=
  match it.frame with
  | none => ([], s, false)
  | some f =>
    let s1 : St Pix := { s with frame := f }
    let step : St Pix × List TraceEv :=
      if ¬ s1.roi_box.empty then
        let fc := apply_camshift ext s1.roi_box termination s1.roi_hist s1.frame
        ({ s1 with frame := fc.1 }, [TraceEv.camshift fc.2])
      else (s1, [])
    let s3 := processClicks ext step.1 it.waitClicks
    if it.key = 'i' ∧ s3.roi_points.length < 4 then
      match frame_roi ext s3 it.selClicks with
      | (none, s4) => (step.2, s4, false)
      | (some hb, s4) =>
        (step.2 ++ [TraceEv.select hb.2 hb.1],
         { s4 with roi_hist := hb.1, roi_box := hb.2 }, true)
    else if it.key = 'q' then (step.2, s3, false)
    else (step.2, s3, true)

/-- The `while (true)` loop of `main` over a stream of per-iteration
inputs.  Returns the trace of tracking/selection events and the final
state. -/
def mainLoop (ext : Ext Pix) : St Pix → List (Iter Pix) → List TraceEv × St Pix
  | s, [] => ([], s)
  | s, it :: rest =>
    match loopIter ext s it with
    | (evs, s', false) => (evs, s')
    | (evs, s', true) =>
      let r := mainLoop ext s' rest
      (evs ++ r.1, r.2)

/-! ## Command line handling -/

/-- What `cv::CommandLineParser(argc, argv, "{help h||}{@video||}")`
extracts from the command line: whether the help flag was supplied and
the positional video argument (empty when absent). -/
structure CommandLine where
  hasHelp : Bool
  videoArg : String
deriving DecidableEq, Repr

/-- Result of `get_arguments`: the value left in `main`'s `video_path`
(initialised empty; the help branch returns before the assignment) and
whether the usage message was printed. -/
structure ArgsEffect where
  videoPath : String
  printedUsage : Bool
deriving DecidableEq, Repr

/-- Model of `get_arguments(argc, argv, video_path)`: on the help flag, print the
usage message and return (leaving `video_path` empty); otherwise copy
the positional video argument into `video_path`. -/
def get_arguments (c : CommandLine) : ArgsEffect :=
  if c.hasHelp then { videoPath := "", printedUsage := true }
  else { videoPath := c.videoArg, printedUsage := false }

/-- The frame source `main` opens. -/
inductive VideoSource where
  | camera0
  | file (path : String)
deriving DecidableEq, Repr

/-- Model of `main`'s source selection: `camera.open(0)` when `video_path` is
empty, else `camera.open(video_path)`. -/
def openSource (videoPath : String) : VideoSource :=
  if videoPath = "" then VideoSource.camera0 else VideoSource.file videoPath

/-- The observable outcome of a run of `main`. -/
structure ProgramResult (Pix : Type) where
  printedUsage : Bool
  source : VideoSource
  trace : List TraceEv
  final : St Pix
  exitCode : Nat

/-- The initial global state: empty frame, no points, `input_mode`
false, default-constructed (empty) `roi_box`, empty `roi_hist`. -/
def initState (Pix : Type) : St Pix :=
  { frame := [], roi_points := [], input_mode := false
    roi_box := ⟨0, 0, 0, 0⟩, roi_hist := [] }

/-- Model of `main`: parse arguments, open the source (unconditionally — the
help branch of `get_arguments` does not stop the program), run the main
loop, return 0. -/
def mainProgram (ext : Ext Pix) (c : CommandLine) (its : List (Iter Pix)) :
    ProgramResult Pix :=
  let eff := get_arguments c
  let src := openSource eff.videoPath
  let ts := mainLoop ext (initState Pix) its
  { printedUsage := eff.printedUsage, source := src
    trace := ts.1, final := ts.2, exitCode := 0 }

/-! ## Helper lemmas: the corner-finding loop -/

/-! ## Concrete fixtures used by witnesses and counterexamples -/

/-- The four points of the skewed counterexample: the unique point of
minimal coordinate sum is `(5,0)` and the unique point of maximal sum is
`(0,10)`, but neither dominates the other componentwise. -/
def skewPoints : List Point := [⟨5, 0⟩, ⟨0, 10⟩, ⟨2, 7⟩, ⟨1, 8⟩]

/-- The points of the end-to-end scenario. -/
def examplePoints : List Point := [⟨10, 10⟩, ⟨10, 50⟩, ⟨50, 10⟩, ⟨50, 50⟩]

/-- A concrete choice of the external primitives over `Pix := Nat`.
Its `camShift` reports an updated search window shifted 10 pixels right
and down from the seed, so runs with it make visible which window each
call was seeded with. -/
def extN : Ext Nat :=
  { drawCircle := fun f _ => f
    cvtHSV := fun p => p
    hue := fun p => p
    backProject := fun _ _ => []
    camShift := fun _ w _ =>
      (⟨25, 25, 40, 40, 0⟩, ⟨w.x + 10, w.y + 10, w.width, w.height⟩)
    boxPoints := fun _ => []
    drawPoly := fun f _ => f }

/-- Like `extN` but with a circle-drawing primitive that visibly
mutates the live frame (prepending a marker row). -/
def extD : Ext Nat :=
  { extN with drawCircle := fun f p => [p.x.toNat, p.y.toNat] :: f }

/-- A pre-selection state on a 2×2 frame. -/
def gW : St Nat :=
  { frame := [[1, 2], [3, 4]], roi_points := [], input_mode := false
    roi_box := ⟨0, 0, 0, 0⟩, roi_hist := [] }

/-- Four left-clicks at `(0,0)`, `(2,0)`, `(0,2)`, `(2,2)`. -/
def evsW : List MouseEvent := [⟨1, 0, 0⟩, ⟨1, 2, 0⟩, ⟨1, 0, 2⟩, ⟨1, 2, 2⟩]

/-- The histogram those clicks produce: the four hue values 1,2,3,4 all
fall in bin 0. -/
def histW : List ℚ := normalizeMinMax (calcHist16 [1, 2, 3, 4])

/-- A state that already holds 4 recorded points. -/
def gFour : St Nat :=
  { frame := [], roi_points := [⟨1, 1⟩, ⟨2, 2⟩, ⟨3, 3⟩, ⟨4, 4⟩]
    input_mode := true, roi_box := ⟨0, 0, 0, 0⟩, roi_hist := [] }

/-- A post-selection tracking state: 4 recorded points, stored box
`{10,10,40,40}`, a histogram stand-in. -/
def sTrack : St Nat :=
  { frame := [], roi_points := [⟨10, 10⟩, ⟨10, 50⟩, ⟨50, 10⟩, ⟨50, 50⟩]
    input_mode := true, roi_box := ⟨10, 10, 40, 40⟩, roi_hist := [1] }

/-- One loop iteration: a frame arrives, no relevant key is pressed. -/
def itX : Iter Nat :=
  { frame := some [[5]], key := 'x', waitClicks := [], selClicks := [] }

/-- One loop iteration in which the user presses the selection key and
clicks. -/
def itI : Iter Nat :=
  { frame := some [[7]], key := 'i', waitClicks := [⟨1, 5, 5⟩]
    selClicks := [⟨1, 6, 6⟩] }

/-- The tracking call `extN` produces from `sTrack`: seeded with the
stored box; the library reports updated window `{20,20,40,40}`, which
the caller discards. -/
def callX : CamCall :=
  { window := ⟨10, 10, 40, 40⟩, crit := termination
    updatedWindow := ⟨20, 20, 40, 40⟩, result := ⟨25, 25, 40, 40, 0⟩ }

/-- The state after a completed selection of four identical points
`(7,9)`: the derived box is `{7,9,0,0}`, which is empty. -/
def sDegenerate : St Nat :=
  { frame := [], roi_points := List.replicate 4 ⟨7, 9⟩, input_mode := true
    roi_box := roiBoxOf (List.replicate 4 ⟨7, 9⟩), roi_hist := [0] }

lemma cornerStep_top_left (acc : Corners) (p : Point) :
    (cornerStep acc p).top_left =
      if p.x + p.y < acc.min_sum then p else acc.top_left := by
  by_cases h1 : p.x + p.y < acc.min_sum <;>
    simp only [cornerStep, h1, if_true, if_false, ite_true, ite_false] <;>
    split <;> rfl

lemma cornerStep_min_sum (acc : Corners) (p : Point) :
    (cornerStep acc p).min_sum =
      if p.x + p.y < acc.min_sum then p.x + p.y else acc.min_sum := by
  by_cases h1 : p.x + p.y < acc.min_sum <;>
    simp only [cornerStep, h1, if_true, if_false, ite_true, ite_false] <;>
    split <;> rfl

lemma cornerStep_bottom_right (acc : Corners) (p : Point) :
    (cornerStep acc p).bottom_right =
      if acc.max_sum < p.x + p.y then p else acc.bottom_right := by
  by_cases h1 : p.x + p.y < acc.min_sum <;>
    by_cases h2 : acc.max_sum < p.x + p.y <;>
    simp only [cornerStep, h1, h2, gt_iff_lt, if_true, if_false, ite_true, ite_false]

lemma cornerStep_max_sum (acc : Corners) (p : Point) :
    (cornerStep acc p).max_sum =
      if acc.max_sum < p.x + p.y then p.x + p.y else acc.max_sum := by
  by_cases h1 : p.x + p.y < acc.min_sum <;>
    by_cases h2 : acc.max_sum < p.x + p.y <;>
    simp only [cornerStep, h1, h2, gt_iff_lt, if_true, if_false, ite_true, ite_false]

/-- Invariant of the corner loop, minimum side: either no point ever
beat the running minimum (and then every visited sum is at least the
initial one), or `top_left` is a visited point attaining the minimum of
the visited sums. -/
lemma foldl_cornerStep_min (pts : List Point) :
    ∀ acc : Corners,
      ((pts.foldl cornerStep acc).top_left = acc.top_left ∧
        (pts.foldl cornerStep acc).min_sum = acc.min_sum ∧
        ∀ q ∈ pts, acc.min_sum ≤ q.x + q.y) ∨
      ((pts.foldl cornerStep acc).top_left ∈ pts ∧
        (pts.foldl cornerStep acc).min_sum =
          (pts.foldl cornerStep acc).top_left.x +
            (pts.foldl cornerStep acc).top_left.y ∧
        (pts.foldl cornerStep acc).min_sum < acc.min_sum ∧
        ∀ q ∈ pts, (pts.foldl cornerStep acc).min_sum ≤ q.x + q.y) := by
  induction pts with
  | nil => intro acc; left; exact ⟨rfl, rfl, by simp⟩
  | cons p rest ih =>
    intro acc
    rw [List.foldl_cons]
    have htl := cornerStep_top_left acc p
    have hms := cornerStep_min_sum acc p
    by_cases hp : p.x + p.y < acc.min_sum
    · rw [if_pos hp] at htl hms
      rcases ih (cornerStep acc p) with ⟨e1, e2, hall⟩ | ⟨hmem, heq, hlt, hall⟩
      · right
        rw [htl] at e1
        rw [hms] at e2 hall
        refine ⟨by rw [e1]; exact List.mem_cons_self p rest, by rw [e1, e2], ?_, ?_⟩
        · rw [e2]; exact hp
        · intro q hq
          rcases List.mem_cons.mp hq with rfl | hq
          · rw [e2]
          · rw [e2]; exact hall q hq
      · right
        rw [hms] at hlt
        refine ⟨List.mem_cons_of_mem p hmem, heq, lt_trans hlt hp, ?_⟩
        intro q hq
        rcases List.mem_cons.mp hq with rfl | hq
        · exact le_of_lt hlt
        · exact hall q hq
    · rw [if_neg hp] at htl hms
      rcases ih (cornerStep acc p) with ⟨e1, e2, hall⟩ | ⟨hmem, heq, hlt, hall⟩
      · left
        rw [htl] at e1
        rw [hms] at e2 hall
        refine ⟨e1, e2, ?_⟩
        intro q hq
        rcases List.mem_cons.mp hq with rfl | hq
        · exact le_of_not_lt hp
        · exact hall q hq
      · right
        rw [hms] at hlt
        refine ⟨List.mem_cons_of_mem p hmem, heq, hlt, ?_⟩
        intro q hq
        rcases List.mem_cons.mp hq with rfl | hq
        · exact le_trans (le_of_lt hlt) (le_of_not_lt hp)
        · exact hall q hq

/-- Invariant of the corner loop, maximum side: either no point ever
beat the running maximum (and then every visited sum is at most the
initial one), or `bottom_right` is a visited point attaining the
maximum of the visited sums. -/
lemma foldl_cornerStep_max (pts : List Point) :
    ∀ acc : Corners,
      ((pts.foldl cornerStep acc).bottom_right = acc.bottom_right ∧
        (pts.foldl cornerStep acc).max_sum = acc.max_sum ∧
        ∀ q ∈ pts, q.x + q.y ≤ acc.max_sum) ∨
      ((pts.foldl cornerStep acc).bottom_right ∈ pts ∧
        (pts.foldl cornerStep acc).max_sum =
          (pts.foldl cornerStep acc).bottom_right.x +
            (pts.foldl cornerStep acc).bottom_right.y ∧
        acc.max_sum < (pts.foldl cornerStep acc).max_sum ∧
        ∀ q ∈ pts, q.x + q.y ≤ (pts.foldl cornerStep acc).max_sum) := by
  induction pts with
  | nil => intro acc; left; exact ⟨rfl, rfl, by simp⟩
  | cons p rest ih =>
    intro acc
    rw [List.foldl_cons]
    have hbr := cornerStep_bottom_right acc p
    have hms := cornerStep_max_sum acc p
    by_cases hp : acc.max_sum < p.x + p.y
    · rw [if_pos hp] at hbr hms
      rcases ih (cornerStep acc p) with ⟨e1, e2, hall⟩ | ⟨hmem, heq, hlt, hall⟩
      · right
        rw [hbr] at e1
        rw [hms] at e2 hall
        refine ⟨by rw [e1]; exact List.mem_cons_self p rest, by rw [e1, e2], ?_, ?_⟩
        · rw [e2]; exact hp
        · intro q hq
          rcases List.mem_cons.mp hq with rfl | hq
          · rw [e2]
          · rw [e2]; exact hall q hq
      · right
        rw [hms] at hlt
        refine ⟨List.mem_cons_of_mem p hmem, heq, lt_trans hp hlt, ?_⟩
        intro q hq
        rcases List.mem_cons.mp hq with rfl | hq
        · exact le_of_lt hlt
        · exact hall q hq
    · rw [if_neg hp] at hbr hms
      rcases ih (cornerStep acc p) with ⟨e1, e2, hall⟩ | ⟨hmem, heq, hlt, hall⟩
      · left
        rw [hbr] at e1
        rw [hms] at e2 hall
        refine ⟨e1, e2, ?_⟩
        intro q hq
        rcases List.mem_cons.mp hq with rfl | hq
        · exact le_of_not_lt hp
        · exact hall q hq
      · right
        rw [hms] at hlt
        refine ⟨List.mem_cons_of_mem p hmem, heq, hlt, ?_⟩
        intro q hq
        rcases List.mem_cons.mp hq with rfl | hq
        · exact le_trans (le_of_not_lt hp) (le_of_lt hlt)
        · exact hall q hq

/-- For a non-empty point list whose sums stay below `INT_MAX`, the
loop's `top_left` is a recorded point of minimal coordinate sum. -/
lemma findCorners_top_left (pts : List Point) (hne : pts ≠ [])
    (hb : ∀ p ∈ pts, p.x + p.y < INT_MAX) :
    (findCorners pts).top_left ∈ pts ∧
      ∀ q ∈ pts,
        (findCorners pts).top_left.x + (findCorners pts).top_left.y ≤
          q.x + q.y := by
  rcases foldl_cornerStep_min pts initCorners with ⟨_, _, hall⟩ | ⟨hmem, heq, _, hall⟩
  · obtain ⟨p, hp⟩ := List.exists_mem_of_ne_nil pts hne
    exact absurd (hall p hp) (not_le.mpr (hb p hp))
  · exact ⟨hmem, fun q hq => heq ▸ hall q hq⟩

/-- For a non-empty point list with non-negative coordinates, the
loop's `bottom_right` is a recorded point of maximal coordinate sum
(when no sum beats the initial `max_sum = 0`, every point is `(0,0)`
and the default-constructed `bottom_right` coincides with it). -/
lemma findCorners_bottom_right (pts : List Point) (hne : pts ≠ [])
    (hnn : ∀ p ∈ pts, 0 ≤ p.x ∧ 0 ≤ p.y) :
    (findCorners pts).bottom_right ∈ pts ∧
      ∀ q ∈ pts,
        q.x + q.y ≤
          (findCorners pts).bottom_right.x + (findCorners pts).bottom_right.y := by
  rcases foldl_cornerStep_max pts initCorners with ⟨e1, _, hall⟩ | ⟨hmem, heq, _, hall⟩
  · have hz : ∀ q ∈ pts, q = (⟨0, 0⟩ : Point) := by
      intro q hq
      have h1 := hall q hq
      rw [show initCorners.max_sum = 0 from rfl] at h1
      have h2 := (hnn q hq).1
      have h3 := (hnn q hq).2
      have hx : q.x = 0 := by omega
      have hy : q.y = 0 := by omega
      cases q
      simp_all
    obtain ⟨p, hp⟩ := List.exists_mem_of_ne_nil pts hne
    have hbz : (findCorners pts).bottom_right = (⟨0, 0⟩ : Point) := e1
    constructor
    · rw [hbz, ← hz p hp]; exact hp
    · intro q hq
      rw [hbz]
      have := hz q hq
      simp [this]
  · exact ⟨hmem, fun q hq => heq ▸ hall q hq⟩

/-! ## Claim C1 -/

/-- C1, counterexample: for the selected points `(5,0), (0,10), (2,7),
(1,8)` the derived ROI box is `{x=0, y=0, w=5, h=10}` — `cv::Rect`
normalizes the two constructor corners with min/max — so the box's
top-left corner `(0,0)` (and its bottom-right corner `(5,10)`) is not a
selected point at all, while the point of minimal coordinate sum is
`(5,0)`.  The claim that the box's top-left corner *is* the minimal-sum
selected point is therefore false as stated. -/
theorem C1_corner_counterexample :
    roiBoxOf skewPoints = ⟨0, 0, 5, 10⟩ ∧
    (⟨5, 0⟩ : Point) ∈ skewPoints ∧
    (∀ q ∈ skewPoints, 5 ≤ q.x + q.y) ∧
    (⟨0, 0⟩ : Point) ∉ skewPoints ∧
    (⟨5, 10⟩ : Point) ∉ skewPoints := by
  decide

/-- C1 (amended): for any 4 selected points with non-negative
coordinates and sums below `INT_MAX`, the derived ROI box is the
`cv::Rect` spanned by a selected point of minimal coordinate sum and a
selected point of maximal coordinate sum; whenever the minimal-sum point
is componentwise at most the maximal-sum point (as in the end-to-end
example), the box's top-left corner is the former and its bottom-right
corner the latter. -/
theorem C1_roi_box_amended (pts : List Point) (h4 : pts.length = 4)
    (hb : ∀ p ∈ pts, 0 ≤ p.x ∧ 0 ≤ p.y ∧ p.x + p.y < INT_MAX) :
    ∃ tl ∈ pts, ∃ br ∈ pts,
      (∀ q ∈ pts, tl.x + tl.y ≤ q.x + q.y) ∧
      (∀ q ∈ pts, q.x + q.y ≤ br.x + br.y) ∧
      roiBoxOf pts = Rect.ofPoints tl br ∧
      (tl.x ≤ br.x → tl.y ≤ br.y →
        roiBoxOf pts = ⟨tl.x, tl.y, br.x - tl.x, br.y - tl.y⟩) := by
  have hne : pts ≠ [] := by
    intro h; rw [h] at h4; simp at h4
  obtain ⟨htl, hmin⟩ := findCorners_top_left pts hne (fun p hp => (hb p hp).2.2)
  obtain ⟨hbr, hmax⟩ := findCorners_bottom_right pts hne
    (fun p hp => ⟨(hb p hp).1, (hb p hp).2.1⟩)
  refine ⟨(findCorners pts).top_left, htl, (findCorners pts).bottom_right, hbr,
    hmin, hmax, rfl, ?_⟩
  intro hx hy
  show Rect.ofPoints _ _ = _
  rw [Rect.ofPoints]
  rw [min_eq_left hx, max_eq_right hx, min_eq_left hy, max_eq_right hy]

/-- C1, witness: the amended theorem applied to the end-to-end example
`(10,10), (10,50), (50,10), (50,50)`, whose ROI box is
`{x=10, y=10, w=40, h=40}`, i.e. top-left `(10,10)` and bottom-right
`(50,50)`. -/
theorem C1_roi_box_amended_witness :
    examplePoints.length = 4 ∧
    (∀ p ∈ examplePoints, 0 ≤ p.x ∧ 0 ≤ p.y ∧ p.x + p.y < INT_MAX) ∧
    (∃ tl ∈ examplePoints, ∃ br ∈ examplePoints,
      (∀ q ∈ examplePoints, tl.x + tl.y ≤ q.x + q.y) ∧
      (∀ q ∈ examplePoints, q.x + q.y ≤ br.x + br.y) ∧
      roiBoxOf examplePoints = Rect.ofPoints tl br ∧
      (tl.x ≤ br.x → tl.y ≤ br.y →
        roiBoxOf examplePoints = ⟨tl.x, tl.y, br.x - tl.x, br.y - tl.y⟩)) ∧
    roiBoxOf examplePoints = ⟨10, 10, 40, 40⟩ :=
  ⟨by decide, by decide,
   C1_roi_box_amended examplePoints (by decide) (by decide), by decide⟩

/-! ## Claim C2: helper lemmas about the histogram -/
lemma foldl_min_le_init (xs : List Nat) : ∀ b : Nat, xs.foldl min b ≤ b := by
  induction xs with
  | nil => intro b; simp
  | cons x xs ih =>
    intro b
    exact le_trans (ih (min b x)) (min_le_left b x)

lemma foldl_min_le_mem (xs : List Nat) :
    ∀ (b a : Nat), a ∈ xs → xs.foldl min b ≤ a := by
  induction xs with
  | nil => intro b a ha; cases ha
  | cons x xs ih =>
    intro b a ha
    rcases List.mem_cons.mp ha with rfl | ha
    · exact le_trans (foldl_min_le_init xs (min b a)) (min_le_right b a)
    · exact ih (min b x) a ha

lemma init_le_foldl_max (xs : List Nat) : ∀ b : Nat, b ≤ xs.foldl max b := by
  induction xs with
  | nil => intro b; simp
  | cons x xs ih =>
    intro b
    exact le_trans (le_max_left b x) (ih (max b x))

lemma mem_le_foldl_max (xs : List Nat) :
    ∀ (b a : Nat), a ∈ xs → a ≤ xs.foldl max b := by
  induction xs with
  | nil => intro b a ha; cases ha
  | cons x xs ih =>
    intro b a ha
    rcases List.mem_cons.mp ha with rfl | ha
    · exact le_trans (le_max_right b a) (init_le_foldl_max xs (max b a))
    · exact ih (max b x) a ha

lemma listMin_le_of_mem {xs : List Nat} {a : Nat} (ha : a ∈ xs) :
    listMin xs ≤ a := by
  cases xs with
  | nil => cases ha
  | cons x xs =>
    rcases List.mem_cons.mp ha with rfl | ha
    · exact foldl_min_le_init xs a
    · exact foldl_min_le_mem xs x a ha

lemma le_listMax_of_mem {xs : List Nat} {a : Nat} (ha : a ∈ xs) :
    a ≤ listMax xs := by
  cases xs with
  | nil => cases ha
  | cons x xs =>
    rcases List.mem_cons.mp ha with rfl | ha
    · exact init_le_foldl_max xs a
    · exact mem_le_foldl_max xs x a ha

/-- Every entry of the min-max normalized list lies in `[0, 255]`. -/
lemma normalizeMinMax_bounds {xs : List Nat} {v : ℚ}
    (hv : v ∈ normalizeMinMax xs) : 0 ≤ v ∧ v ≤ 255 := by
  simp only [normalizeMinMax] at hv
  split at hv
  · obtain ⟨c, _, hc⟩ := List.mem_map.mp hv
    rw [← hc]
    norm_num
  · rename_i hne
    obtain ⟨c, hcmem, hc⟩ := List.mem_map.mp hv
    have hlo : ((listMin xs : ℚ)) ≤ (c : ℚ) := by
      exact_mod_cast listMin_le_of_mem hcmem
    have hhi : ((c : ℚ)) ≤ (listMax xs : ℚ) := by
      exact_mod_cast le_listMax_of_mem hcmem
    have hlt : ((listMin xs : ℚ)) < (listMax xs : ℚ) :=
      lt_of_le_of_ne (le_trans hlo hhi) (Ne.symm hne)
    have hpos : (0 : ℚ) < (listMax xs : ℚ) - (listMin xs : ℚ) := by linarith
    rw [← hc]
    constructor
    · apply div_nonneg
      · have : (0 : ℚ) ≤ (c : ℚ) - (listMin xs : ℚ) := by linarith
        positivity
      · linarith
    · rw [div_le_iff₀ hpos]
      nlinarith

lemma calcHist16_length (hues : List Nat) : (calcHist16 hues).length = 16 := by
  simp [calcHist16]

lemma normalizeMinMax_length (xs : List Nat) :
    (normalizeMinMax xs).length = xs.length := by
  simp only [normalizeMinMax]
  split <;> simp

/-- C2: for every completed selection (a `frame_roi` run returning a
histogram/box pair) whose ROI box is non-degenerate, the computed ROI
histogram is a 1-D histogram with exactly 16 hue bins and, after
min-max normalization, every bin value lies in `[0, 255]`. -/
theorem C2_histogram_16_bins (ext : Ext Pix) (g : St Pix)
    (events : List MouseEvent) (h : List ℚ) (b : Rect)
    (hrun : (frame_roi ext g events).1 = some (h, b))
    (hnd : b.empty = false) :
    h.length = 16 ∧ ∀ v ∈ h, 0 ≤ v ∧ v ≤ 255 := by
  simp only [frame_roi] at hrun
  rcases hpu : processUntil4 ext { g with input_mode := true } events with ⟨g2, done⟩
  rw [hpu] at hrun
  cases done
  · simp at hrun
  · simp only [Option.some.injEq, Prod.mk.injEq] at hrun
    obtain ⟨hh, _⟩ := hrun
    constructor
    · rw [← hh, normalizeMinMax_length, calcHist16_length]
    · intro v hv
      rw [← hh] at hv
      exact normalizeMinMax_bounds hv

/-! ## Concrete instantiations of the external primitives, used to
evaluate the model on closed runs -/

/-- Concretely, `histW` is 255 in bin 0 and 0 in the other 15 bins. -/
lemma histW_eval :
    histW = [255, 0, 0, 0, 0, 0, 0, 0, 0, 0, 0, 0, 0, 0, 0, 0] := by
  have h1 : calcHist16 [1, 2, 3, 4] =
      [4, 0, 0, 0, 0, 0, 0, 0, 0, 0, 0, 0, 0, 0, 0, 0] := by decide
  have h2 : listMin [4, 0, 0, 0, 0, 0, 0, 0, 0, 0, 0, 0, 0, 0, 0, 0] = 0 := by
    decide
  have h3 : listMax [4, 0, 0, 0, 0, 0, 0, 0, 0, 0, 0, 0, 0, 0, 0, 0] = 4 := by
    decide
  rw [histW, h1]
  simp only [normalizeMinMax, h2, h3]
  norm_num

/-- C2, witness: a concrete completed selection with non-degenerate box
`{0,0,2,2}` whose histogram is `histW = [255, 0, …, 0]`: 16 bins, all
values in `[0,255]`. -/
theorem C2_histogram_16_bins_witness :
    (frame_roi extN gW evsW).1 = some (histW, ⟨0, 0, 2, 2⟩) ∧
    (Rect.mk 0 0 2 2).empty = false ∧
    histW = [255, 0, 0, 0, 0, 0, 0, 0, 0, 0, 0, 0, 0, 0, 0, 0] ∧
    (histW.length = 16 ∧ ∀ v ∈ histW, 0 ≤ v ∧ v ≤ 255) :=
  ⟨by rfl, by decide, histW_eval,
   C2_histogram_16_bins extN gW evsW histW ⟨0, 0, 2, 2⟩ (by rfl) (by decide)⟩

/-! ## Claim C5 -/

/-- C5: in any state, an iteration whose frame read yields no frame
(empty frame: end of stream or device failure) terminates the main loop
at once — the run's trace is empty (so no tracking computation happens
in that iteration or any later one) and the remaining iterations are
never processed. -/
theorem C5_empty_frame_terminates (ext : Ext Pix) (s : St Pix) (k : Char)
    (wc sc : List MouseEvent) (rest : List (Iter Pix)) :
    mainLoop ext s
      ({ frame := none, key := k, waitClicks := wc, selClicks := sc } :: rest) =
      ([], s) := rfl

/-! ## Claim C6: the callback never records a 5th point -/
lemma select_roi_length_le (ext : Ext Pix) (g : St Pix) (ev : MouseEvent)
    (h : g.roi_points.length ≤ 4) :
    (select_roi ext g ev).roi_points.length ≤ 4 := by
  unfold select_roi
  split
  · rename_i hc
    simp only [List.length_append, List.length_cons, List.length_nil]
    omega
  · exact h

lemma select_roi_of_ge4 (ext : Ext Pix) (g : St Pix) (ev : MouseEvent)
    (h : 4 ≤ g.roi_points.length) : select_roi ext g ev = g := by
  unfold select_roi
  rw [if_neg]
  intro hc
  omega

lemma processClicks_length_le (ext : Ext Pix) (evs : List MouseEvent) :
    ∀ g : St Pix, g.roi_points.length ≤ 4 →
      (processClicks ext g evs).roi_points.length ≤ 4 := by
  induction evs with
  | nil => intro g h; exact h
  | cons e rest ih =>
    intro g h
    rw [processClicks, List.foldl_cons]
    exact ih (select_roi ext g e) (select_roi_length_le ext g e h)

lemma processClicks_of_ge4 (ext : Ext Pix) (evs : List MouseEvent) :
    ∀ g : St Pix, 4 ≤ g.roi_points.length → processClicks ext g evs = g := by
  induction evs with
  | nil => intro g _; rfl
  | cons e rest ih =>
    intro g h
    rw [processClicks, List.foldl_cons, select_roi_of_ge4 ext g e h]
    exact ih g h

lemma processUntil4_length_le (ext : Ext Pix) (evs : List MouseEvent) :
    ∀ g : St Pix, g.roi_points.length ≤ 4 →
      (processUntil4 ext g evs).1.roi_points.length ≤ 4 := by
  induction evs with
  | nil => intro g h; exact h
  | cons e rest ih =>
    intro g h
    rw [processUntil4]
    split
    · exact h
    · exact ih (select_roi ext g e) (select_roi_length_le ext g e h)

/-- C6: for every sequence of mouse events, starting from at most 4
recorded points (as at program start), the recorded ROI point list never
exceeds 4 entries — both along the callback deliveries and through
`frame_roi`'s waiting loop — and once exactly 4 points are recorded no
further click changes the list. -/
theorem C6_never_five_points (ext : Ext Pix) (g : St Pix)
    (evs : List MouseEvent) (h : g.roi_points.length ≤ 4) :
    (processClicks ext g evs).roi_points.length ≤ 4 ∧
    (processUntil4 ext g evs).1.roi_points.length ≤ 4 ∧
    (g.roi_points.length = 4 →
      (processClicks ext g evs).roi_points = g.roi_points) := by
  refine ⟨processClicks_length_le ext evs g h,
    processUntil4_length_le ext evs g h, ?_⟩
  intro h4
  rw [processClicks_of_ge4 ext evs g (le_of_eq h4.symm)]

/-- C6, witness: with 4 points already recorded, a further left-click
leaves the recorded list unchanged (no 5th point). -/
theorem C6_never_five_points_witness :
    gFour.roi_points.length ≤ 4 ∧ gFour.roi_points.length = 4 ∧
    (processClicks extN gFour [⟨1, 9, 9⟩]).roi_points = gFour.roi_points :=
  ⟨by decide, by decide,
   (C6_never_five_points extN gFour [⟨1, 9, 9⟩] (by decide)).2.2 (by decide)⟩

/-! ## Claim C7: the histogram is computed from the frozen frame -/

/-- The points recorded (and the mode flag) by `select_roi` do not
depend on the frame contents or on the drawing primitive. -/
lemma select_roi_congr (ext ext' : Ext Pix) (g g' : St Pix) (ev : MouseEvent)
    (hp : g.roi_points = g'.roi_points) (hm : g.input_mode = g'.input_mode) :
    (select_roi ext g ev).roi_points = (select_roi ext' g' ev).roi_points ∧
    (select_roi ext g ev).input_mode = (select_roi ext' g' ev).input_mode := by
  have hc1 : (g.input_mode ∧ ev.event = EVENT_LBUTTONDOWN ∧
        g.roi_points.length < 4) ↔
      (g'.input_mode ∧ ev.event = EVENT_LBUTTONDOWN ∧
        g'.roi_points.length < 4) := by rw [hp, hm]
  unfold select_roi
  by_cases hc : g'.input_mode ∧ ev.event = EVENT_LBUTTONDOWN ∧
      g'.roi_points.length < 4
  · rw [if_pos (hc1.mpr hc), if_pos hc]
    exact ⟨by simp [hp], by simp [hm]⟩
  · rw [if_neg (fun hx => hc (hc1.mp hx)), if_neg hc]
    exact ⟨hp, hm⟩

/-- The waiting loop of `frame_roi` records the same points and
completes in the same way regardless of the frame contents and of the
drawing primitive. -/
lemma processUntil4_congr (evs : List MouseEvent) :
    ∀ (ext ext' : Ext Pix) (g g' : St Pix),
      g.roi_points = g'.roi_points → g.input_mode = g'.input_mode →
      (processUntil4 ext g evs).1.roi_points =
          (processUntil4 ext' g' evs).1.roi_points ∧
        (processUntil4 ext g evs).1.input_mode =
          (processUntil4 ext' g' evs).1.input_mode ∧
        (processUntil4 ext g evs).2 = (processUntil4 ext' g' evs).2 := by
  induction evs with
  | nil =>
    intro ext ext' g g' hp hm
    simp [processUntil4, hp, hm]
  | cons e rest ih =>
    intro ext ext' g g' hp hm
    rw [processUntil4, processUntil4]
    by_cases hc : 4 ≤ g'.roi_points.length
    · rw [if_pos (by rw [hp]; exact hc), if_pos hc]
      exact ⟨hp, hm, rfl⟩
    · rw [if_neg (by rw [hp]; exact hc), if_neg hc]
      obtain ⟨h1, h2⟩ := select_roi_congr ext ext' g g' e hp hm
      exact ih ext ext' _ _ h1 h2

/-- C7: the histogram/box pair computed by `frame_roi` is taken from the
frozen clone of the frame at entry: it is unchanged under any
replacement of the circle-drawing primitive (the visual click markers
drawn on the live frame) and any other external drawing — only the hue
conversion primitives matter. -/
theorem C7_histogram_from_frozen_frame (ext ext' : Ext Pix) (g : St Pix)
    (events : List MouseEvent)
    (hhsv : ext'.cvtHSV = ext.cvtHSV) (hhue : ext'.hue = ext.hue) :
    (frame_roi ext g events).1 = (frame_roi ext' g events).1 := by
  obtain ⟨h1, _, h3⟩ := processUntil4_congr events ext ext'
    { g with input_mode := true } { g with input_mode := true } rfl rfl
  simp only [frame_roi]
  rcases hpu : processUntil4 ext { g with input_mode := true } events
    with ⟨g2, done⟩
  rcases hpu' : processUntil4 ext' { g with input_mode := true } events
    with ⟨g2', done'⟩
  rw [hpu, hpu'] at h1 h3
  simp only at h1 h3
  subst h3
  cases done
  · rfl
  · simp only [Option.some.injEq, Prod.mk.injEq]
    rw [h1, hhsv, hhue]
    exact ⟨rfl, rfl⟩

/-- C7, witness: the same selection run under the trivial drawing
primitive and under one that visibly mutates the live frame yields the
same histogram and box, while the live frames do end up different. -/
theorem C7_histogram_from_frozen_frame_witness :
    extD.cvtHSV = extN.cvtHSV ∧ extD.hue = extN.hue ∧
    (frame_roi extN gW evsW).1 = (frame_roi extD gW evsW).1 ∧
    (frame_roi extN gW evsW).2.frame ≠ (frame_roi extD gW evsW).2.frame :=
  ⟨rfl, rfl, C7_histogram_from_frozen_frame extN extD gW evsW rfl rfl,
   by decide⟩

/-! ## Per-iteration lemmas about the main loop -/

/-- Any tracking call recorded by one loop iteration used the stored
(non-empty) `roi_box` as its search window and the global `termination`
criteria. -/
lemma loopIter_camshift_mem (ext : Ext Pix) (s : St Pix) (it : Iter Pix)
    (c : CamCall) (h : TraceEv.camshift c ∈ (loopIter ext s it).1) :
    s.roi_box.empty = false ∧ c.window = s.roi_box ∧ c.crit = termination := by
  unfold loopIter at h
  rcases hf : it.frame with _ | f <;> rw [hf] at h
  · simp at h
  · simp only at h
    by_cases hbox : s.roi_box.empty
    · rw [if_neg (not_not_intro hbox)] at h
      split at h
      · split at h <;> simp_all
      · split at h <;> simp_all
    · rw [if_pos hbox] at h
      refine ⟨eq_false_of_ne_true hbox, ?_⟩
      split at h
      · split at h <;> simp_all <;> exact ⟨rfl, rfl⟩
      · split at h <;> simp_all <;> exact ⟨rfl, rfl⟩

/-- With 4 (or more) points already recorded, one loop iteration never
enters selection: the recorded points, the ROI box and the ROI
histogram are all preserved and no selection event is emitted. -/
lemma loopIter_ge4 (ext : Ext Pix) (s : St Pix) (it : Iter Pix)
    (h4 : 4 ≤ s.roi_points.length) :
    (loopIter ext s it).2.1.roi_points = s.roi_points ∧
    (loopIter ext s it).2.1.roi_box = s.roi_box ∧
    (loopIter ext s it).2.1.roi_hist = s.roi_hist ∧
    ∀ b hh, TraceEv.select b hh ∉ (loopIter ext s it).1 := by
  unfold loopIter
  rcases hf : it.frame with _ | f
  · simp
  · simp only
    by_cases hbox : s.roi_box.empty
    · rw [if_neg (not_not_intro hbox)]
      have hpc := processClicks_of_ge4 ext it.waitClicks
        ({ s with frame := f } : St Pix) h4
      rw [hpc, if_neg (fun hc => absurd hc.2 (by simp; omega))]
      by_cases hq : it.key = 'q'
      · rw [if_pos hq]; simp
      · rw [if_neg hq]; simp
    · rw [if_pos hbox]
      have hpc := processClicks_of_ge4 ext it.waitClicks
        ({ s with
            frame := (apply_camshift ext s.roi_box termination s.roi_hist f).1 } :
          St Pix) h4
      rw [hpc, if_neg (fun hc => absurd hc.2 (by simp; omega))]
      by_cases hq : it.key = 'q'
      · rw [if_pos hq]; simp
      · rw [if_neg hq]; simp

/-- Every tracking call in a main-loop run is made with the
`termination` criteria declared in `main`. -/
lemma mainLoop_crit (ext : Ext Pix) (its : List (Iter Pix)) :
    ∀ (s : St Pix) (c : CamCall),
      TraceEv.camshift c ∈ (mainLoop ext s its).1 → c.crit = termination := by
  induction its with
  | nil => intro s c h; simp [mainLoop] at h
  | cons it rest ih =>
    intro s c h
    rw [mainLoop] at h
    rcases hli : loopIter ext s it with ⟨evs, s', cont⟩
    rw [hli] at h
    cases cont
    · simp only at h
      exact (loopIter_camshift_mem ext s it c (by rw [hli]; exact h)).2.2
    · simp only at h
      rcases List.mem_append.mp h with h | h
      · exact (loopIter_camshift_mem ext s it c (by rw [hli]; exact h)).2.2
      · exact ih s' c h

/-- From any state with at least 4 recorded points, the whole main loop
preserves the recorded points, the ROI box and the ROI histogram, and
emits no selection event. -/
lemma mainLoop_ge4 (ext : Ext Pix) (its : List (Iter Pix)) :
    ∀ s : St Pix, 4 ≤ s.roi_points.length →
      (mainLoop ext s its).2.roi_points = s.roi_points ∧
      (mainLoop ext s its).2.roi_box = s.roi_box ∧
      (mainLoop ext s its).2.roi_hist = s.roi_hist ∧
      ∀ b hh, TraceEv.select b hh ∉ (mainLoop ext s its).1 := by
  induction its with
  | nil => intro s _; simp [mainLoop]
  | cons it rest ih =>
    intro s h4
    obtain ⟨hp, hb, hh, hns⟩ := loopIter_ge4 ext s it h4
    rw [mainLoop]
    rcases hli : loopIter ext s it with ⟨evs, s', cont⟩
    rw [hli] at hp hb hh hns
    simp only at hp hb hh hns
    cases cont
    · exact ⟨hp, hb, hh, fun b hh1 => hns b hh1⟩
    · obtain ⟨hp', hb', hh', hns'⟩ := ih s' (by rw [hp]; exact h4)
      refine ⟨by rw [hp', hp], by rw [hb', hb], by rw [hh', hh], ?_⟩
      intro b hh1
      simp only [List.mem_append, not_or]
      exact ⟨hns b hh1, hns' b hh1⟩

/-- From any state with an empty ROI box and at least 4 recorded
points, the main loop never invokes the tracking primitive and the box
stays the same (empty) box. -/
lemma mainLoop_empty_box (ext : Ext Pix) (its : List (Iter Pix)) :
    ∀ s : St Pix, s.roi_box.empty = true → 4 ≤ s.roi_points.length →
      (∀ c : CamCall, TraceEv.camshift c ∉ (mainLoop ext s its).1) ∧
      (mainLoop ext s its).2.roi_box = s.roi_box := by
  induction its with
  | nil => intro s _ _; simp [mainLoop]
  | cons it rest ih =>
    intro s hbox h4
    obtain ⟨hp, hb, _, _⟩ := loopIter_ge4 ext s it h4
    rw [mainLoop]
    rcases hli : loopIter ext s it with ⟨evs, s', cont⟩
    rw [hli] at hp hb
    simp only at hp hb
    have hnc : ∀ c : CamCall, TraceEv.camshift c ∉ evs := by
      intro c hc
      have := (loopIter_camshift_mem ext s it c (by rw [hli]; exact hc)).1
      rw [hbox] at this
      cases this
    cases cont
    · exact ⟨hnc, hb⟩
    · obtain ⟨hnc', hb'⟩ := ih s' (by rw [hb, hbox]) (by rw [hp]; exact h4)
      refine ⟨?_, by rw [hb', hb]⟩
      intro c hc
      rcases List.mem_append.mp hc with hc | hc
      · exact hnc c hc
      · exact hnc' c hc

/-! ## Concrete run fixtures -/

/-! ## Claim C3 -/

/-- C3: evaluation of the code at the failing input.  Two consecutive
frames are processed after a selection with box `{10,10,40,40}`; the
mean-shift primitive reports an updated search window `{20,20,40,40}`
on the first frame, yet the second frame's search is again seeded with
`{10,10,40,40}` — `apply_camshift` receives `roi_box` by const
reference, so the updated window `cv::CamShift` writes through its
`Rect&` parameter never reaches `main`'s `roi_box` (as written the call
does not even compile), and the seed never carries forward. -/
theorem C3_seed_not_carried_forward :
    (mainLoop extN sTrack [itX, itX]).1 =
      [TraceEv.camshift callX, TraceEv.camshift callX] ∧
    callX.window = sTrack.roi_box ∧
    callX.updatedWindow ≠ sTrack.roi_box := by decide

/-! ## Claim C4 -/

/-- C4: evaluation of the code at the failing input.  With the help
flag supplied, the program prints the usage message but does *not*
exit: `get_arguments`'s `return` only leaves the helper, `video_path`
stays empty, so `main` opens camera device 0 and enters the frame loop
(here it consumes the supplied frame). -/
theorem C4_help_still_runs :
    (mainProgram extN ⟨true, ""⟩ [itX]).printedUsage = true ∧
    (mainProgram extN ⟨true, ""⟩ [itX]).source = VideoSource.camera0 ∧
    (mainProgram extN ⟨true, ""⟩ [itX]).final.frame = [[5]] := by decide

/-! ## Claim C8 -/

/-- C8: every invocation of the mean-shift tracking primitive recorded
in any run of the main loop carries the fixed termination rule: type
`EPS | COUNT`, at most 10 iterations, epsilon 1. -/
theorem C8_termination_criteria (ext : Ext Pix) (s : St Pix)
    (its : List (Iter Pix)) (c : CamCall)
    (h : TraceEv.camshift c ∈ (mainLoop ext s its).1) :
    c.crit = termination ∧
    c.crit.type = TermCriteria.EPS ||| TermCriteria.COUNT ∧
    c.crit.maxCount = 10 ∧ c.crit.epsilon = 1 := by
  have hc := mainLoop_crit ext its s c h
  exact ⟨hc, by rw [hc]; rfl, by rw [hc]; rfl, by rw [hc]; rfl⟩

/-- C8, witness: a concrete run containing a tracking call, whose
criteria are `EPS | COUNT`, 10, 1. -/
theorem C8_termination_criteria_witness :
    TraceEv.camshift callX ∈ (mainLoop extN sTrack [itX]).1 ∧
    (callX.crit = termination ∧
      callX.crit.type = TermCriteria.EPS ||| TermCriteria.COUNT ∧
      callX.crit.maxCount = 10 ∧ callX.crit.epsilon = 1) :=
  ⟨by decide, C8_termination_criteria extN sTrack [itX] callX (by decide)⟩

/-! ## Claim C9 -/

/-- C9: selection is one-shot.  From any state with 4 (or more)
recorded points — as after a completed selection, since the point list
is never cleared — the selection-entry guard stays false forever: the
rest of the run records no new points, emits no selection event, and
never replaces the ROI box or the ROI histogram. -/
theorem C9_selection_one_shot (ext : Ext Pix) (s : St Pix)
    (its : List (Iter Pix)) (h4 : 4 ≤ s.roi_points.length) :
    (mainLoop ext s its).2.roi_points = s.roi_points ∧
    (mainLoop ext s its).2.roi_box = s.roi_box ∧
    (mainLoop ext s its).2.roi_hist = s.roi_hist ∧
    ∀ b hh, TraceEv.select b hh ∉ (mainLoop ext s its).1 :=
  mainLoop_ge4 ext its s h4

/-- C9, witness: after a completed selection, even an iteration where
the user presses the selection key and clicks leaves the points, box
and histogram unchanged. -/
theorem C9_selection_one_shot_witness :
    4 ≤ sTrack.roi_points.length ∧
    ((mainLoop extN sTrack [itI]).2.roi_points = sTrack.roi_points ∧
      (mainLoop extN sTrack [itI]).2.roi_box = sTrack.roi_box ∧
      (mainLoop extN sTrack [itI]).2.roi_hist = sTrack.roi_hist ∧
      ∀ b hh, TraceEv.select b hh ∉ (mainLoop extN sTrack [itI]).1) :=
  ⟨by decide, C9_selection_one_shot extN sTrack [itI] (by decide)⟩

/-! ## Claim C10 -/

/-- C10: if the stored ROI box is empty (as when a completed selection
used four identical points) then, the 4 recorded points barring any new
selection, the tracking branch is never taken again: no tracking call
appears in the rest of the run and the box stays the same empty box. -/
theorem C10_empty_box_never_tracks (ext : Ext Pix) (s : St Pix)
    (its : List (Iter Pix)) (hbox : s.roi_box.empty = true)
    (h4 : 4 ≤ s.roi_points.length) :
    (∀ c : CamCall, TraceEv.camshift c ∉ (mainLoop ext s its).1) ∧
    (mainLoop ext s its).2.roi_box = s.roi_box :=
  mainLoop_empty_box ext its s hbox h4

/-- C10, witness: a two-frame run from the degenerate-selection state
makes no tracking call and keeps the empty box. -/
theorem C10_empty_box_never_tracks_witness :
    sDegenerate.roi_box.empty = true ∧ 4 ≤ sDegenerate.roi_points.length ∧
    ((∀ c, TraceEv.camshift c ∉ (mainLoop extN sDegenerate [itX, itX]).1) ∧
      (mainLoop extN sDegenerate [itX, itX]).2.roi_box = sDegenerate.roi_box) :=
  ⟨by decide, by decide,
   C10_empty_box_never_tracks extN sDegenerate [itX, itX] (by decide) (by decide)⟩

end Camshift
